import Mathlib

/-!
# pgr: the polling engine of `poller.go`

A shallow embedding of `Poller` (`src/poller.go`): the registry operations
`Add`, `SetOut`, `SetDuration`, the pass `poll` and the redraw loop `Show`.

* Go `error` values are `Option Err`, `none` being `nil`.
* `sync.RWMutex` is a pair (number of read holds, write hold).  An acquisition
  that cannot proceed is reported as `blocked`: the calling goroutine stops at
  that statement.  No statement of the package releases a read hold
  (`RUnlock` is never called) and the field is unexported, so a `Lock` that
  finds a read hold stays blocked for good.
* `io.Writer` values and `Bar` values live outside the engine.  The engine
  field `out` and the elements of `bars` are references (numbers); the sinks
  and the indicators themselves are maps from references to states, carried
  next to the engine in a `World`.
* The `select` of `Show` is resolved by a schedule: the list of the cases that
  fire, one per wait, with the producers' `Inc` calls that land while `Show`
  waits in between.  A schedule that runs out leaves `Show` waiting.
* Calls are run one after the other: no other goroutine touches the engine
  while a call is between two of its statements.  Theorems speak of the state
  a call finds at entry (or, for the loop, at a wait).
* `bar.go` and the terminal helpers are not among the sources; `Bar` and the
  three helpers are modelled from the specification and marked as such.
-/

namespace Pgr

/-- Go `error` values that reach this package: its three package-level errors,
and errors returned by a sink's `Write` (identified by a code).  A sink lives
outside the package and cannot build the unexported `errUnfinished`, and
`Show` never returns it, so write errors are a separate constructor. -/
inductive Err where
  | cantChangeOut
  | canceled
  | unfinished
  | write (code : Nat)
  deriving DecidableEq

/-- The package error `errCantChangeOut`, "cannot change out while running". -/
def errCantChangeOut : Err := Err.cantChangeOut

/-- The package error `ErrCanceled`, "canceled by context". -/
def ErrCanceled : Err := Err.canceled

/-- The package error `errUnfinished`, "not finished yet". -/
def errUnfinished : Err := Err.unfinished

/-- An `io.Writer` as seen by the engine: the bytes it has accepted, and the
outcome of each coming `Write` call (`none`: the call succeeds, `some c`: it
fails with error `c`).  Once the list is used up every call succeeds. -/
structure Writer where
  data : String
  script : List (Option Nat)
  deriving DecidableEq

/-- One `Write` call: the call consumes one entry of the script; bytes are
accepted when it succeeds. -/
def Writer.Write (w : Writer) (s : String) : Writer × Option Err :=
  match w.script with
  | [] => ({ w with data := w.data ++ s }, none)
  | none :: rest => ({ data := w.data ++ s, script := rest }, none)
  | some c :: rest => ({ data := w.data, script := rest }, some (Err.write c))

/-- A sink on which all writes succeed. -/
def Writer.reliable (w : Writer) : Prop := ∀ r ∈ w.script, r = none

instance (w : Writer) : Decidable w.reliable := by
  unfold Writer.reliable
  infer_instance

/-- Modelled from the spec: the terminal helpers `termSave`, `termRestore` and
`termClearLine` are not under src/.  The spec treats them as three primitives
(save-cursor, restore-cursor, clear-current-line); each is taken to emit its
control sequence with one `Write`.  The sequences themselves are parameters. -/
structure Term where
  save : String
  restore : String
  clearLine : String
  deriving DecidableEq

/-- The call `termSave(w)`: used as a statement, no result reaches the caller. -/
def termSave (t : Term) (w : Writer) : Writer := (w.Write t.save).1

/-- The call `termRestore(w)`: used as a statement, no result reaches the caller. -/
def termRestore (t : Term) (w : Writer) : Writer := (w.Write t.restore).1

/-- The call `termClearLine(w)`: used as a statement, no result reaches the
caller. -/
def termClearLine (t : Term) (w : Writer) : Writer := (w.Write t.clearLine).1

/-- Modelled from the spec: the `Bar` type is not under src/.  An indicator
has a target, a position and a rendering callback that is a function of the
indicator's state. -/
structure Bar where
  total : Int
  current : Int
  format : Int → Int → String

/-- Method `Bar.Total()`. -/
def Bar.Total (b : Bar) : Int := b.total

/-- Method `Bar.Current()`. -/
def Bar.Current (b : Bar) : Int := b.current

/-- Modelled from the spec: `Bar.Inc()` is not under src/ (`Advance` in the
spec): it increments the position by one unit. -/
def Bar.Inc (b : Bar) : Bar := { b with current := b.current + 1 }

/-- The text the bar's template produces. -/
def Bar.Render (b : Bar) : String := b.format b.current b.total

/-- The call `b.tmpl.Execute(w, b)`: one write of the rendered text to the
sink, whose error it returns. -/
def Bar.Execute (b : Bar) (w : Writer) : Writer × Option Err := w.Write b.Render

/-- State of a `sync.RWMutex`. -/
structure RWMutex where
  readers : Nat
  writer : Bool
  deriving DecidableEq

/-- A mutex nobody holds. -/
def RWMutex.free : RWMutex := { readers := 0, writer := false }

/-- The call `mu.Lock()`: `none` when the call cannot proceed. -/
def RWMutex.Lock (m : RWMutex) : Option RWMutex :=
  if m.readers = 0 ∧ m.writer = false then some { m with writer := true } else none

/-- The call `mu.Unlock()`. -/
def RWMutex.Unlock (m : RWMutex) : RWMutex := { m with writer := false }

/-- The call `mu.RLock()`: `none` when the call cannot proceed. -/
def RWMutex.RLock (m : RWMutex) : Option RWMutex :=
  if m.writer = false then some { m with readers := m.readers + 1 } else none

/-- The `Poller` struct; `bars` is a slice of `*Bar` and `out` an `io.Writer`,
both held by reference. -/
structure Poller where
  duration : Int
  bars : List Nat
  mu : RWMutex
  running : Bool
  out : Nat
  deriving DecidableEq

/-- The engine together with the indicators and the sinks its fields may
refer to. -/
structure World where
  p : Poller
  mem : Nat → Bar
  sinks : Nat → Writer

/-- The sink the engine currently refers to. -/
def World.sink (s : World) : Writer := s.sinks s.p.out

/-- Replace the state of the sink the engine currently refers to. -/
def World.setSink (s : World) (w : Writer) : World :=
  { s with sinks := Function.update s.sinks s.p.out w }

/-- The indicators the registry refers to, in registry order. -/
def World.indicators (s : World) : List Bar := s.p.bars.map s.mem

/-- A producer calls `Inc` on the indicator behind reference `i`. -/
def World.inc (s : World) (i : Nat) : World :=
  { s with mem := Function.update s.mem i (s.mem i).Inc }

/-- Result of a call: it returns, or the goroutine is blocked at a lock. -/
inductive Res (α : Type) where
  | ret (s : World) (a : α)
  | blocked (s : World)

/-- Method `Poller.Add`. -/
def Add (s : World) (bars : List Nat) : Res Unit :=
  if bars.length = 0 then Res.ret s ()
  else
    match s.p.mu.Lock with
    | none => Res.blocked s
    | some m =>
      Res.ret { s with p := { s.p with mu := m.Unlock, bars := s.p.bars ++ bars } } ()

/-- Method `Poller.SetOut`. -/
def SetOut (s : World) (out : Nat) : Res (Option Err) :=
  match s.p.mu.RLock with
  | none => Res.blocked s
  | some m1 =>
    let s1 : World := { s with p := { s.p with mu := m1 } }
    if s1.p.running then Res.ret s1 (some errCantChangeOut)
    else
      match s1.p.mu.Lock with
      | none => Res.blocked s1
      | some m2 =>
        Res.ret { s1 with p := { s1.p with mu := m2.Unlock, out := out } } none

/-- Method `Poller.SetDuration`. -/
def SetDuration (s : World) (d : Int) : Res Unit :=
  match s.p.mu.Lock with
  | none => Res.blocked s
  | some m => Res.ret { s with p := { s.p with mu := m.Unlock, duration := d } } ()

/-- The loop `for i := range p.bars` of `poll`, on the sink `p.out` refers to
and the indicators `p.bars[i]` refers to; `err` is the named result. -/
def pollBars (t : Term) : Writer → List Bar → Option Err → Writer × Option Err
  | w, [], err => (w, err)
  | w, b :: bs, err =>
    let w1 := termClearLine t w
    match b.Execute w1 with
    | (w2, some e) => (w2, some e)
    | (w2, none) =>
      match w2.Write "\n" with
      | (w3, some e) => (w3, some e)
      | (w3, none) =>
        pollBars t w3 bs (if b.Current < b.Total then some errUnfinished else err)

/-- Method `Poller.poll`. -/
def poll (t : Term) (s : World) : Res (Option Err) :=
  match s.p.mu.Lock with
  | none => Res.blocked s
  | some m =>
    let r := pollBars t s.sink s.indicators none
    Res.ret { s.setSink r.1 with p := { s.p with mu := m.Unlock } } r.2

/-- What happens next while `Show` is at its `select`: one of the two cases
fires, or a producer increments an indicator and `Show` keeps waiting. -/
inductive Event where
  | ctxDone
  | timer
  | inc (bar : Nat)
  deriving DecidableEq

/-- Result of `Show`, with the number of passes (calls of `poll` that came
back) it has made: it returned, it is blocked at a lock, or it is at the
`select` with the schedule used up. -/
inductive ShowRes where
  | returned (s : World) (err : Option Err) (passes : Nat)
  | blocked (s : World) (passes : Nat)
  | waiting (s : World) (passes : Nat)

/-- The deferred function of `Show`. -/
def showExit (s : World) (err : Option Err) (passes : Nat) : ShowRes :=
  match s.p.mu.Lock with
  | none => ShowRes.blocked s passes
  | some m =>
    ShowRes.returned { s with p := { s.p with mu := m.Unlock, running := false } } err passes

/-- The `for { select { ... } }` loop of `Show`. -/
def showLoop (t : Term) : World → List Event → Nat → ShowRes
  | s, [], n => ShowRes.waiting s n
  | s, Event.inc i :: rest, n => showLoop t (s.inc i) rest n
  | s, Event.ctxDone :: _, n => showExit s (some ErrCanceled) n
  | s, Event.timer :: rest, n =>
    match poll t (s.setSink (termRestore t s.sink)) with
    | Res.blocked s1 => ShowRes.blocked s1 n
    | Res.ret s1 none => showExit s1 none (n + 1)
    | Res.ret s1 (some e) =>
      if e ≠ errUnfinished then showExit s1 (some e) (n + 1)
      else showLoop t s1 rest (n + 1)

/-- Method `Poller.Show`. -/
def Show (t : Term) (s : World) (sched : List Event) : ShowRes :=
  match s.p.mu.Lock with
  | none => ShowRes.blocked s 0
  | some m =>
    let s1 : World := { s with p := { s.p with mu := m.Unlock, running := true } }
    showLoop t (s1.setSink (termSave t s1.sink)) sched 0

/-- The bytes of one full pass over the indicators: for each, in order, the
clear-current-line sequence, the rendered text, one newline. -/
def passBytes (t : Term) : List Bar → String
  | [] => ""
  | b :: bs => t.clearLine ++ b.Render ++ "\n" ++ passBytes t bs

/-- Number of timer ticks in a schedule. -/
def ticks : List Event → Nat
  | [] => 0
  | Event.timer :: rest => ticks rest + 1
  | _ :: rest => ticks rest

/-! ## Concrete data used to instantiate the theorems -/

/-- Control sequences of a VT100 terminal. -/
def vt : Term := { save := "\x1b7", restore := "\x1b8", clearLine := "\x1b[2K" }

/-- An indicator at 1 of 2. -/
def barHalf : Bar := { total := 2, current := 1, format := fun _ _ => "half" }

/-- An indicator at 2 of 2. -/
def barFull : Bar := { total := 2, current := 2, format := fun _ _ => "full" }

/-- Indicators by reference: an incomplete one behind 0, complete ones behind
every other reference. -/
def shelf : Nat → Bar
  | 0 => barHalf
  | _ => barFull

/-- A sink that accepts every write. -/
def okSink : Writer := { data := "", script := [] }

/-- A sink whose fourth write fails with error 7. -/
def brokenSink : Writer := { data := "", script := [none, none, none, some 7] }

/-- A sink whose first write fails with error 7. -/
def deafSink : Writer := { data := "", script := [some 7] }

/-- A sink whose third write fails with error 7. -/
def deafAtThird : Writer := { data := "", script := [none, none, some 7] }

/-- A sink whose seventh write fails with error 9. -/
def lateSink : Writer :=
  { data := "", script := [none, none, none, none, none, none, some 9] }

/-- A sink whose fifth write fails with error 5. -/
def flakySink : Writer := { data := "", script := [none, none, none, none, some 5] }

/-- An idle engine with the given registry, referring to sink 0; every sink
behaves as `w`. -/
def idle (bars : List Nat) (w : Writer) : World :=
  { p := { duration := 100, bars := bars, mu := RWMutex.free, running := false, out := 0 },
    mem := shelf, sinks := fun _ => w }

/-- The same engine while its loop is active, between two passes. -/
def active (bars : List Nat) (w : Writer) : World :=
  { p := { duration := 100, bars := bars, mu := RWMutex.free, running := true, out := 0 },
    mem := shelf, sinks := fun _ => w }

/-! ## Lemmas on the sink, the pass and the loop -/

theorem write_reliable {w : Writer} (h : w.reliable) (s : String) :
    ∃ w', w.Write s = (w', none) ∧ w'.data = w.data ++ s ∧ w'.reliable := by
  obtain ⟨d, sc⟩ := w
  cases sc with
  | nil => exact ⟨_, rfl, rfl, h⟩
  | cons r rest =>
    have hr : r = none := h r (List.mem_cons_self _ _)
    subst hr
    exact ⟨_, rfl, rfl, fun x hx => h x (List.mem_cons_of_mem _ hx)⟩

theorem pollBars_reliable (t : Term) :
    ∀ (bars : List Bar) (w : Writer) (err : Option Err), w.reliable →
      ∃ w', pollBars t w bars err =
          (w', if ∀ b ∈ bars, b.Current ≥ b.Total then err else some errUnfinished) ∧
        w'.data = w.data ++ passBytes t bars ∧ w'.reliable := by
  intro bars
  induction bars with
  | nil =>
    intro w err h
    exact ⟨w, by simp [pollBars], by simp [passBytes], h⟩
  | cons b bs ih =>
    intro w err h
    obtain ⟨w1, e1, d1, r1⟩ := write_reliable h t.clearLine
    obtain ⟨w2, e2, d2, r2⟩ := write_reliable r1 b.Render
    obtain ⟨w3, e3, d3, r3⟩ := write_reliable r2 "\n"
    obtain ⟨w', e', d', r'⟩ :=
      ih w3 (if b.Current < b.Total then some errUnfinished else err) r3
    refine ⟨w', ?_, ?_, r'⟩
    · simp only [pollBars, termClearLine, Bar.Execute, e1, e2, e3, e']
      by_cases hb : b.Current < b.Total
      · have : ¬ (b.Current ≥ b.Total) := not_le.mpr hb
        simp [hb, this]
      · have : b.Current ≥ b.Total := not_lt.mp hb
        simp [hb, this]
    · rw [d', d3, d2, d1]
      simp [passBytes, String.append_assoc]

/-- With the lock free, `poll` comes back: the engine is as before and the
sink has gone through the loop over the registry. -/
theorem poll_of_free (t : Term) (s : World) (hmu : s.p.mu = RWMutex.free) :
    poll t s = Res.ret (s.setSink (pollBars t s.sink s.indicators none).1)
      (pollBars t s.sink s.indicators none).2 := by
  obtain ⟨⟨d, bs, mu, r, o⟩, mem, sk⟩ := s
  simp only at hmu
  subst hmu
  rfl

theorem setSink_sink (s : World) (w : Writer) : (s.setSink w).sink = w := by
  simp [World.setSink, World.sink]

theorem setSink_indicators (s : World) (w : Writer) :
    (s.setSink w).indicators = s.indicators := rfl

theorem setSink_setSink (s : World) (a b : Writer) :
    (s.setSink a).setSink b = s.setSink b := by
  simp [World.setSink]

/-- The deferred function of `Show` comes back when the lock is free. -/
theorem showExit_of_free (s : World) (err : Option Err) (n : Nat)
    (hmu : s.p.mu = RWMutex.free) :
    showExit s err n = ShowRes.returned { s with p := { s.p with running := false } } err n := by
  obtain ⟨⟨d, bs, mu, r, o⟩, mem, sk⟩ := s
  simp only at hmu
  subst hmu
  rfl

/-- With the lock free, `Show` marks the engine running, emits the save-cursor
sequence and enters its loop. -/
theorem show_of_free (t : Term) (s : World) (sched : List Event)
    (hmu : s.p.mu = RWMutex.free) :
    Show t s sched =
      showLoop t (World.setSink { s with p := { s.p with running := true } }
        (termSave t s.sink)) sched 0 := by
  obtain ⟨⟨d, bs, mu, r, o⟩, mem, sk⟩ := s
  simp only at hmu
  subst hmu
  rfl

/-- One timer tick of the loop of `Show` when the lock is free. -/
theorem showLoop_timer (t : Term) (s : World) (rest : List Event) (n : Nat)
    (hmu : s.p.mu = RWMutex.free) :
    showLoop t s (Event.timer :: rest) n =
      match (pollBars t (termRestore t s.sink) s.indicators none).2 with
      | none =>
        ShowRes.returned
          { s.setSink (pollBars t (termRestore t s.sink) s.indicators none).1 with
            p := { s.p with running := false } } none (n + 1)
      | some e =>
        if e ≠ errUnfinished then
          ShowRes.returned
            { s.setSink (pollBars t (termRestore t s.sink) s.indicators none).1 with
              p := { s.p with running := false } } (some e) (n + 1)
        else showLoop t (s.setSink (pollBars t (termRestore t s.sink) s.indicators none).1)
          rest (n + 1) := by
  have hp := poll_of_free t (s.setSink (termRestore t s.sink)) hmu
  rw [setSink_sink, setSink_indicators, setSink_setSink] at hp
  simp only [showLoop, hp]
  cases h : (pollBars t (termRestore t s.sink) s.indicators none).2 with
  | none => exact showExit_of_free _ _ _ hmu
  | some e =>
    show (if e ≠ errUnfinished then showExit (s.setSink _) (some e) (n + 1) else _) = _
    by_cases he : e ≠ errUnfinished
    · rw [if_pos he]
      simp only [he, if_true, ne_eq, not_false_eq_true]
      exact showExit_of_free (s.setSink _) _ _ hmu
    · rw [if_neg he]
      simp only [he, if_false]

theorem write_some {w w' : Writer} {s : String} {e : Err} (h : w.Write s = (w', some e)) :
    ∃ c, e = Err.write c := by
  obtain ⟨d, sc⟩ := w
  cases sc with
  | nil => simp [Writer.Write] at h
  | cons r rest =>
    cases r with
    | none => simp [Writer.Write] at h
    | some c =>
      simp only [Writer.Write, Prod.mk.injEq, Option.some.injEq] at h
      exact ⟨c, h.2.symm⟩

/-- What a pass can come back with: the value the named result started with,
errUnfinished, or the error of a write. -/
theorem pollBars_err (t : Term) :
    ∀ (bars : List Bar) (w : Writer) (err : Option Err),
      (pollBars t w bars err).2 = err ∨ (pollBars t w bars err).2 = some errUnfinished ∨
        ∃ c, (pollBars t w bars err).2 = some (Err.write c) := by
  intro bars
  induction bars with
  | nil => intro w err; exact Or.inl rfl
  | cons b bs ih =>
    intro w err
    rcases hx : (termClearLine t w).Write b.Render with ⟨w2, _ | e2⟩
    · rcases hy : w2.Write "\n" with ⟨w3, _ | e3⟩
      · simp only [pollBars, Bar.Execute, hx, hy]
        rcases ih w3 (if b.Current < b.Total then some errUnfinished else err) with h | h | h
        · by_cases hb : b.Current < b.Total
          · rw [h]; simp [hb]
          · rw [h]; simp [hb]
        · exact Or.inr (Or.inl h)
        · exact Or.inr (Or.inr h)
      · simp only [pollBars, Bar.Execute, hx, hy]
        obtain ⟨c, hc⟩ := write_some hy
        exact Or.inr (Or.inr ⟨c, by rw [hc]⟩)
    · simp only [pollBars, Bar.Execute, hx]
      obtain ⟨c, hc⟩ := write_some hx
      exact Or.inr (Or.inr ⟨c, by rw [hc]⟩)

theorem showExit_ne_waiting (s s' : World) (err : Option Err) (n m : Nat) :
    showExit s err n ≠ ShowRes.waiting s' m := by
  unfold showExit
  cases s.p.mu.Lock <;> simp

/-- What holds of the engine wherever the loop of `Show` stands, when the lock
was free on entering the loop. -/
theorem showLoop_inv (t : Term) :
    ∀ (sched : List Event) (s : World) (n : Nat), s.p.mu = RWMutex.free →
      match showLoop t s sched n with
      | ShowRes.waiting s' _ => s'.p = s.p
      | ShowRes.returned s' err _ =>
        s'.p = { s.p with running := false } ∧
          (err = none ∨ err = some ErrCanceled ∨ ∃ c, err = some (Err.write c))
      | ShowRes.blocked _ _ => False := by
  intro sched
  induction sched with
  | nil => intro s n _; simp [showLoop]
  | cons w rest ih =>
    intro s n hmu
    cases w with
    | inc i =>
      simp only [showLoop]
      exact ih (s.inc i) n hmu
    | ctxDone =>
      simp only [showLoop]
      rw [showExit_of_free _ _ _ hmu]
      exact ⟨rfl, Or.inr (Or.inl rfl)⟩
    | timer =>
      rw [showLoop_timer t s rest n hmu]
      rcases hx : (pollBars t (termRestore t s.sink) s.indicators none).2 with _ | e
      · exact ⟨rfl, Or.inl rfl⟩
      · by_cases he : e ≠ errUnfinished
        · dsimp only
          rw [if_pos he]
          refine ⟨rfl, Or.inr (Or.inr ?_)⟩
          rcases pollBars_err t s.indicators (termRestore t s.sink) none with h | h | ⟨c, h⟩
          · rw [hx] at h; cases h
          · rw [hx] at h; cases h; exact absurd rfl he
          · rw [hx] at h; exact ⟨c, h⟩
        · dsimp only
          rw [if_neg he]
          exact ih (s.setSink _) (n + 1) hmu

/-- A loop that stands at its select has made one pass per timer tick of the
schedule, and goes on from there when the schedule is longer. -/
theorem showLoop_waiting_append (t : Term) :
    ∀ (pre : List Event) (s s' : World) (n m : Nat),
      showLoop t s pre n = ShowRes.waiting s' m →
        m = n + ticks pre ∧
          ∀ more, showLoop t s (pre ++ more) n = showLoop t s' more m := by
  intro pre
  induction pre with
  | nil =>
    intro s s' n m h
    simp only [showLoop, ShowRes.waiting.injEq] at h
    obtain ⟨h1, h2⟩ := h
    subst h1 h2
    exact ⟨by simp [ticks], fun _ => rfl⟩
  | cons w rest ih =>
    intro s s' n m h
    cases w with
    | inc i =>
      simp only [showLoop] at h
      obtain ⟨hm, hmore⟩ := ih (s.inc i) s' n m h
      refine ⟨by simpa [ticks] using hm, fun more => ?_⟩
      simp only [List.cons_append, showLoop]
      exact hmore more
    | ctxDone =>
      simp only [showLoop] at h
      exact absurd h (showExit_ne_waiting _ _ _ _ _)
    | timer =>
      rcases hp : poll t (s.setSink (termRestore t s.sink)) with ⟨s1, _ | e⟩ | s1
      · simp only [showLoop, hp] at h
        exact absurd h (showExit_ne_waiting _ _ _ _ _)
      · by_cases he : e ≠ errUnfinished
        · simp only [showLoop, hp, he, if_true, ne_eq, not_false_eq_true] at h
          exact absurd h (showExit_ne_waiting _ _ _ _ _)
        · simp only [showLoop, hp, he, if_false] at h
          obtain ⟨hm, hmore⟩ := ih s1 s' (n + 1) m h
          refine ⟨by simp only [ticks]; omega, fun more => ?_⟩
          simp only [List.cons_append, showLoop, hp, he, if_false]
          exact hmore more
      · simp [showLoop, hp] at h

/-- Producers' increments that land while `Show` waits are absorbed by the
loop: it stands at the same select with the indicators advanced. -/
theorem showLoop_incs (t : Term) (rest : List Event) :
    ∀ (incs : List Nat) (s : World) (n : Nat),
      showLoop t s (incs.map Event.inc ++ rest) n =
        showLoop t (incs.foldl World.inc s) rest n := by
  intro incs
  induction incs with
  | nil => intro s n; rfl
  | cons i incs ih =>
    intro s n
    simp only [List.map_cons, List.cons_append, showLoop, List.foldl_cons]
    exact ih (s.inc i) n

theorem foldl_inc_p : ∀ (incs : List Nat) (s : World), (incs.foldl World.inc s).p = s.p := by
  intro incs
  induction incs with
  | nil => intro s; rfl
  | cons i incs ih => intro s; rw [List.foldl_cons, ih]; rfl

theorem foldl_inc_sinks :
    ∀ (incs : List Nat) (s : World), (incs.foldl World.inc s).sinks = s.sinks := by
  intro incs
  induction incs with
  | nil => intro s; rfl
  | cons i incs ih => intro s; rw [List.foldl_cons, ih]; rfl

theorem foldl_inc_sink (incs : List Nat) (s : World) :
    (incs.foldl World.inc s).sink = s.sink := by
  simp only [World.sink, foldl_inc_p, foldl_inc_sinks]

theorem foldl_inc_mem :
    ∀ (incs : List Nat) (s s' : World), s.mem = s'.mem →
      (incs.foldl World.inc s).mem = (incs.foldl World.inc s').mem := by
  intro incs
  induction incs with
  | nil => intro s s' h; exact h
  | cons i incs ih =>
    intro s s' h
    rw [List.foldl_cons, List.foldl_cons]
    apply ih
    simp only [World.inc, h]

theorem forall_indicators (s : World) (P : Bar → Prop) :
    (∀ b ∈ s.indicators, P b) ↔ ∀ i ∈ s.p.bars, P (s.mem i) := by
  simp [World.indicators]

/-! ## C1 -/

/-- C1: on an engine whose lock is free and whose sink accepts every write, a
pass comes back with nil exactly when every registered indicator has
Current() >= Total(); when some indicator, anywhere in the registry, has
Current() < Total() the pass comes back with errUnfinished, and the loop of
Show, on a timer tick, goes back to its select with the rest of the schedule. -/
theorem poll_nil_iff_all_complete (t : Term) (s : World)
    (hmu : s.p.mu = RWMutex.free) (hw : s.sink.reliable) :
    (∃ s' r, poll t s = Res.ret s' r ∧
      (r = none ↔ ∀ i ∈ s.p.bars, (s.mem i).Current ≥ (s.mem i).Total) ∧
      ((∃ i ∈ s.p.bars, (s.mem i).Current < (s.mem i).Total) → r = some errUnfinished)) ∧
    ((∃ i ∈ s.p.bars, (s.mem i).Current < (s.mem i).Total) →
      ∀ (rest : List Event) (n : Nat),
      ∃ s1, poll t (s.setSink (termRestore t s.sink)) = Res.ret s1 (some errUnfinished) ∧
        showLoop t s (Event.timer :: rest) n = showLoop t s1 rest (n + 1)) := by
  have hno : (∃ i ∈ s.p.bars, (s.mem i).Current < (s.mem i).Total) →
      ¬ ∀ b ∈ s.indicators, b.Current ≥ b.Total := by
    rintro ⟨i, hi, hlt⟩ hall
    exact absurd (hall (s.mem i) (List.mem_map_of_mem _ hi)) (not_le.mpr hlt)
  constructor
  · obtain ⟨w', e', -, -⟩ := pollBars_reliable t s.indicators s.sink none hw
    refine ⟨_, _, poll_of_free t s hmu, ?_, ?_⟩
    · rw [e', ← forall_indicators s (fun b => b.Current ≥ b.Total)]
      by_cases h : ∀ b ∈ s.indicators, b.Current ≥ b.Total
      · simp [h]
      · simp only [h, if_false, iff_false]
        simp [errUnfinished]
    · intro hex
      rw [e']
      simp [hno hex]
  · intro hex rest n
    have h := hno hex
    obtain ⟨w1, e1, -, r1⟩ := write_reliable hw t.restore
    have hr : (s.setSink (termRestore t s.sink)).sink.reliable := by
      rw [setSink_sink]; simp only [termRestore, e1]; exact r1
    obtain ⟨w', e', -, -⟩ :=
      pollBars_reliable t s.indicators (s.setSink (termRestore t s.sink)).sink none hr
    have hp := poll_of_free t (s.setSink (termRestore t s.sink)) hmu
    rw [setSink_indicators, e'] at hp
    simp only [h, if_false] at hp
    refine ⟨_, hp, ?_⟩
    simp only [showLoop, hp]
    simp

/-- Instance of C1: a complete indicator followed by an incomplete one. -/
theorem poll_nil_iff_all_complete_witness :
    (idle [1, 0] okSink).p.mu = RWMutex.free ∧
    (idle [1, 0] okSink).sink.reliable ∧
    ((∃ s' r, poll vt (idle [1, 0] okSink) = Res.ret s' r ∧
      (r = none ↔ ∀ i ∈ (idle [1, 0] okSink).p.bars,
        ((idle [1, 0] okSink).mem i).Current ≥ ((idle [1, 0] okSink).mem i).Total) ∧
      ((∃ i ∈ (idle [1, 0] okSink).p.bars,
          ((idle [1, 0] okSink).mem i).Current < ((idle [1, 0] okSink).mem i).Total) →
        r = some errUnfinished)) ∧
    ((∃ i ∈ (idle [1, 0] okSink).p.bars,
        ((idle [1, 0] okSink).mem i).Current < ((idle [1, 0] okSink).mem i).Total) →
      ∀ (rest : List Event) (n : Nat),
      ∃ s1, poll vt ((idle [1, 0] okSink).setSink
          (termRestore vt (idle [1, 0] okSink).sink)) =
          Res.ret s1 (some errUnfinished) ∧
        showLoop vt (idle [1, 0] okSink) (Event.timer :: rest) n =
          showLoop vt s1 rest (n + 1))) :=
  ⟨rfl, by decide,
    poll_nil_iff_all_complete vt (idle [1, 0] okSink) rfl (by decide)⟩

/-- The two outcomes of a pass on concrete engines. -/
theorem poll_concrete :
    (∃ s', poll vt (idle [1, 2] okSink) = Res.ret s' none) ∧
    (∃ s', poll vt (idle [1, 0] okSink) = Res.ret s' (some errUnfinished)) ∧
    (∃ s', poll vt (idle [0, 1] okSink) = Res.ret s' (some errUnfinished)) ∧
    (∃ s', poll vt (idle [] okSink) = Res.ret s' none) :=
  ⟨⟨_, rfl⟩, ⟨_, rfl⟩, ⟨_, rfl⟩, ⟨_, rfl⟩⟩

/-! ## C2 -/

/-- With the lock free, `Add` comes back and only the registry has changed. -/
theorem add_of_free (s : World) (new : List Nat) (hmu : s.p.mu = RWMutex.free) :
    Add s new = Res.ret { s with p := { s.p with bars := s.p.bars ++ new } } () := by
  obtain ⟨⟨d, bs, mu, r, o⟩, mem, sk⟩ := s
  simp only at hmu
  subst hmu
  cases new with
  | nil => simp [Add]
  | cons b rest => rfl

/-- C2: Add with no arguments gives the engine back as it was; on an engine
whose lock is free, Add(new) comes back with the registry equal to the old
registry followed by new and every other field as before; and a pass that
follows, on a sink accepting every write, comes back having appended to the
sink, for each indicator in that order, the clear-current-line sequence, the
rendered text and one newline, whatever the indicators' positions. -/
theorem add_then_pass (t : Term) (s : World) (new : List Nat)
    (hmu : s.p.mu = RWMutex.free) :
    Add s [] = Res.ret s () ∧
    Add s new = Res.ret { s with p := { s.p with bars := s.p.bars ++ new } } () ∧
    (s.sink.reliable →
      ∃ s' r, poll t { s with p := { s.p with bars := s.p.bars ++ new } } = Res.ret s' r ∧
        s'.p.bars = s.p.bars ++ new ∧
        s'.sink.data = s.sink.data ++ passBytes t ((s.p.bars ++ new).map s.mem)) := by
  refine ⟨rfl, add_of_free s new hmu, fun hw => ?_⟩
  obtain ⟨w', e', d', -⟩ := pollBars_reliable t ((s.p.bars ++ new).map s.mem) s.sink none hw
  refine ⟨_, _, poll_of_free t { s with p := { s.p with bars := s.p.bars ++ new } } hmu,
    rfl, ?_⟩
  rw [setSink_sink]
  show (pollBars t s.sink ((s.p.bars ++ new).map s.mem) none).1.data = _
  rw [e']
  exact d'

/-- Instance of C2: a complete indicator is added after an incomplete one. -/
theorem add_then_pass_witness :
    (idle [0] okSink).p.mu = RWMutex.free ∧
    (Add (idle [0] okSink) [] = Res.ret (idle [0] okSink) () ∧
    Add (idle [0] okSink) [1] =
      Res.ret { idle [0] okSink with
        p := { (idle [0] okSink).p with bars := (idle [0] okSink).p.bars ++ [1] } } () ∧
    ((idle [0] okSink).sink.reliable →
      ∃ s' r, poll vt { idle [0] okSink with
          p := { (idle [0] okSink).p with
            bars := (idle [0] okSink).p.bars ++ [1] } } = Res.ret s' r ∧
        s'.p.bars = (idle [0] okSink).p.bars ++ [1] ∧
        s'.sink.data = (idle [0] okSink).sink.data ++
          passBytes vt (((idle [0] okSink).p.bars ++ [1]).map (idle [0] okSink).mem))) :=
  ⟨rfl, add_then_pass vt (idle [0] okSink) [1] rfl⟩

/-- The bytes of the pass after adding a complete indicator to a registry
holding an incomplete one. -/
theorem add_then_pass_concrete :
    ∃ s1 s2 r, Add (idle [0] okSink) [1] = Res.ret s1 () ∧ s1.p.bars = [0, 1] ∧
      poll vt s1 = Res.ret s2 r ∧ s2.sink.data = "\x1b[2Khalf\n\x1b[2Kfull\n" :=
  ⟨_, _, _, rfl, rfl, rfl, by decide⟩

/-! ## C6 -/

/-- C6: on an engine whose lock is free at entry, wherever a run of Show
stands at its select the running flag is true, and when Show has returned
(with nil, with ErrCanceled or with the error of a write, the only values it
returns) the flag is false; registry, interval and sink reference are as at
entry throughout; and Show is never left blocked at the lock. -/
theorem show_running_flag (t : Term) (s : World) (sched : List Event)
    (hmu : s.p.mu = RWMutex.free) :
    match Show t s sched with
    | ShowRes.waiting s' _ =>
      s'.p.running = true ∧ s'.p.bars = s.p.bars ∧ s'.p.duration = s.p.duration ∧
        s'.p.out = s.p.out
    | ShowRes.returned s' err _ =>
      s'.p.running = false ∧ s'.p.bars = s.p.bars ∧ s'.p.duration = s.p.duration ∧
        s'.p.out = s.p.out ∧
        (err = none ∨ err = some ErrCanceled ∨ ∃ c, err = some (Err.write c))
    | ShowRes.blocked _ _ => False := by
  rw [show_of_free t s sched hmu]
  have h := showLoop_inv t sched
    (World.setSink { s with p := { s.p with running := true } } (termSave t s.sink)) 0 hmu
  revert h
  cases showLoop t
    (World.setSink { s with p := { s.p with running := true } } (termSave t s.sink)) sched 0 with
  | waiting s' k =>
    intro h
    simp only at h ⊢
    rw [h]
    exact ⟨rfl, rfl, rfl, rfl⟩
  | returned s' err k =>
    intro h
    simp only at h ⊢
    obtain ⟨hp, he⟩ := h
    rw [hp]
    exact ⟨rfl, rfl, rfl, rfl, he⟩
  | blocked s' k => intro h; exact h

/-- Instance of C6: cancellation after one pass over an incomplete indicator. -/
theorem show_running_flag_witness :
    (idle [0] okSink).p.mu = RWMutex.free ∧
    (match Show vt (idle [0] okSink) [Event.timer, Event.ctxDone] with
    | ShowRes.waiting s' _ =>
      s'.p.running = true ∧ s'.p.bars = (idle [0] okSink).p.bars ∧
        s'.p.duration = (idle [0] okSink).p.duration ∧
        s'.p.out = (idle [0] okSink).p.out
    | ShowRes.returned s' err _ =>
      s'.p.running = false ∧ s'.p.bars = (idle [0] okSink).p.bars ∧
        s'.p.duration = (idle [0] okSink).p.duration ∧
        s'.p.out = (idle [0] okSink).p.out ∧
        (err = none ∨ err = some ErrCanceled ∨ ∃ c, err = some (Err.write c))
    | ShowRes.blocked _ _ => False) :=
  ⟨rfl, show_running_flag vt (idle [0] okSink) [Event.timer, Event.ctxDone] rfl⟩

/-- The three ways out of Show and a run still at its select, on concrete
engines: the flag is false after each return and true at the select.  In the
second run a producer completes the indicator between two passes. -/
theorem show_exits_concrete :
    (∃ s', Show vt (idle [1] okSink) [Event.timer] = ShowRes.returned s' none 1 ∧
      s'.p.running = false) ∧
    (∃ s', Show vt (idle [0] okSink) [Event.timer, Event.inc 0, Event.timer] =
      ShowRes.returned s' none 2 ∧ s'.p.running = false) ∧
    (∃ s', Show vt (idle [0] okSink) [Event.timer, Event.ctxDone] =
      ShowRes.returned s' (some ErrCanceled) 1 ∧ s'.p.running = false) ∧
    (∃ s', Show vt (idle [0] brokenSink) [Event.timer] =
      ShowRes.returned s' (some (Err.write 7)) 1 ∧ s'.p.running = false) ∧
    (∃ s', Show vt (idle [0] okSink) [Event.timer, Event.timer] = ShowRes.waiting s' 2 ∧
      s'.p.running = true) :=
  ⟨⟨_, rfl, rfl⟩, ⟨_, rfl, rfl⟩, ⟨_, rfl, rfl⟩, ⟨_, rfl, rfl⟩, ⟨_, rfl, rfl⟩⟩

/-! ## C7 -/

/-- C7: on an engine whose lock is free at entry, when the cancellation
signal is what the first wait of Show observes, Show returns ErrCanceled
(which is not nil) after zero passes, and the only thing that happened to any
sink is the one write of the save-cursor sequence to the engine's sink.  When
cancellation is observed at the wait Show stands at after a schedule with k
timer ticks, Show returns ErrCanceled after those k passes and every sink is
as it stood at that wait. -/
theorem show_canceled (t : Term) (s : World) (rest : List Event)
    (hmu : s.p.mu = RWMutex.free) :
    (∃ s', Show t s (Event.ctxDone :: rest) = ShowRes.returned s' (some ErrCanceled) 0 ∧
      s'.sinks = Function.update s.sinks s.p.out (s.sink.Write t.save).1 ∧
      (s.sink.reliable → s'.sink.data = s.sink.data ++ t.save)) ∧
    some ErrCanceled ≠ (none : Option Err) ∧
    (∀ (pre : List Event) (s1 : World) (k : Nat), Show t s pre = ShowRes.waiting s1 k →
      k = ticks pre ∧
      ∃ s', Show t s (pre ++ Event.ctxDone :: rest) =
          ShowRes.returned s' (some ErrCanceled) k ∧ s'.sinks = s1.sinks) := by
  refine ⟨?_, by simp, ?_⟩
  · rw [show_of_free t s _ hmu]
    simp only [showLoop]
    rw [showExit_of_free
      (World.setSink { s with p := { s.p with running := true } } (termSave t s.sink))
      (some ErrCanceled) 0 hmu]
    refine ⟨_, rfl, rfl, fun hw => ?_⟩
    obtain ⟨w1, e1, d1, -⟩ := write_reliable hw t.save
    show (World.sink (World.setSink { s with p := { s.p with running := true } }
      (termSave t s.sink))).data = _
    rw [setSink_sink]
    simp only [termSave, e1]
    exact d1
  · intro pre s1 k hwait
    rw [show_of_free t s _ hmu] at hwait ⊢
    obtain ⟨hk, hmore⟩ := showLoop_waiting_append t pre _ s1 0 k hwait
    have hinv := showLoop_inv t pre _ 0
      (show (World.setSink { s with p := { s.p with running := true } }
        (termSave t s.sink)).p.mu = RWMutex.free from hmu)
    rw [hwait] at hinv
    simp only at hinv
    have hmu1 : s1.p.mu = RWMutex.free := by rw [hinv]; exact hmu
    refine ⟨by omega, ?_⟩
    rw [hmore]
    simp only [showLoop]
    rw [showExit_of_free _ _ _ hmu1]
    exact ⟨_, rfl, rfl⟩

/-- Instance of C7 on an idle engine with one incomplete indicator. -/
theorem show_canceled_witness :
    (idle [0] okSink).p.mu = RWMutex.free ∧
    ((∃ s', Show vt (idle [0] okSink) (Event.ctxDone :: [Event.timer]) =
        ShowRes.returned s' (some ErrCanceled) 0 ∧
      s'.sinks = Function.update (idle [0] okSink).sinks (idle [0] okSink).p.out
        ((idle [0] okSink).sink.Write vt.save).1 ∧
      ((idle [0] okSink).sink.reliable →
        s'.sink.data = (idle [0] okSink).sink.data ++ vt.save)) ∧
    some ErrCanceled ≠ (none : Option Err) ∧
    (∀ (pre : List Event) (s1 : World) (k : Nat),
      Show vt (idle [0] okSink) pre = ShowRes.waiting s1 k →
      k = ticks pre ∧
      ∃ s', Show vt (idle [0] okSink) (pre ++ Event.ctxDone :: [Event.timer]) =
          ShowRes.returned s' (some ErrCanceled) k ∧ s'.sinks = s1.sinks)) :=
  ⟨rfl, show_canceled vt (idle [0] okSink) [Event.timer] rfl⟩

/-- Cancellation at the first wait and after two passes, on a concrete
engine: the bytes the sink holds when Show has returned. -/
theorem show_canceled_concrete :
    (∃ s', Show vt (idle [0] okSink) [Event.ctxDone, Event.timer] =
        ShowRes.returned s' (some ErrCanceled) 0 ∧ s'.sink.data = "\x1b7") ∧
    (∃ s', Show vt (idle [0] okSink) [Event.timer, Event.timer, Event.ctxDone, Event.timer] =
        ShowRes.returned s' (some ErrCanceled) 2 ∧
      s'.sink.data = "\x1b7\x1b8\x1b[2Khalf\n\x1b8\x1b[2Khalf\n") :=
  ⟨⟨_, rfl, by decide⟩, ⟨_, rfl, by decide⟩⟩

/-! ## C8 -/

/-- C8: on an engine whose lock is free at entry and whose sink accepts every
write, if after the producers' increments that precede the first timer tick
every indicator has Current() >= Total() (and no cancellation comes before
that tick), Show returns nil after exactly one pass; the sink has received
the save-cursor sequence, the restore-cursor sequence and the lines of that
one pass, and with an empty registry only the two cursor sequences. -/
theorem show_one_pass (t : Term) (s : World) (incs : List Nat) (rest : List Event)
    (hmu : s.p.mu = RWMutex.free) (hw : s.sink.reliable)
    (hall : ∀ i ∈ s.p.bars, ((incs.foldl World.inc s).mem i).Current ≥
      ((incs.foldl World.inc s).mem i).Total) :
    ∃ s', Show t s (incs.map Event.inc ++ Event.timer :: rest) = ShowRes.returned s' none 1 ∧
      s'.sink.data = s.sink.data ++ t.save ++ t.restore ++
        passBytes t (incs.foldl World.inc s).indicators ∧
      (s.p.bars = [] → s'.sink.data = s.sink.data ++ t.save ++ t.restore) := by
  obtain ⟨w1, e1, d1, r1⟩ := write_reliable hw t.save
  obtain ⟨w2, e2, d2, r2⟩ := write_reliable r1 t.restore
  have hall' : ∀ b ∈ (incs.foldl World.inc s).indicators, b.Current ≥ b.Total := by
    rw [forall_indicators (incs.foldl World.inc s) (fun b => b.Current ≥ b.Total),
      foldl_inc_p]
    exact hall
  obtain ⟨w3, e3, d3, -⟩ :=
    pollBars_reliable t (incs.foldl World.inc s).indicators w2 none r2
  rw [if_pos hall'] at e3
  have hs : termSave t s.sink = w1 := by simp only [termSave, e1]
  have hr : termRestore t w1 = w2 := by simp only [termRestore, e2]
  have hdata : w3.data = s.sink.data ++ t.save ++ t.restore ++
      passBytes t (incs.foldl World.inc s).indicators := by
    rw [d3, d2, d1]
  obtain ⟨s2, hs2⟩ : ∃ s2 : World,
      s2 = incs.foldl World.inc
        (World.setSink { s with p := { s.p with running := true } } w1) := ⟨_, rfl⟩
  have hp2 : s2.p = { s.p with running := true } := by rw [hs2, foldl_inc_p]; rfl
  have hi2 : s2.indicators = (incs.foldl World.inc s).indicators := by
    unfold World.indicators
    rw [hp2, foldl_inc_p, hs2]
    rw [foldl_inc_mem incs
      (World.setSink { s with p := { s.p with running := true } } w1) s rfl]
  have hk2 : s2.sink = w1 := by rw [hs2, foldl_inc_sink]; exact setSink_sink _ _
  have hm2 : s2.p.mu = RWMutex.free := by rw [hp2]; exact hmu
  rw [show_of_free t s _ hmu, hs, showLoop_incs, ← hs2,
    showLoop_timer t s2 rest 0 hm2, hk2, hr, hi2, e3]
  refine ⟨_, rfl, ?_, fun hb => ?_⟩
  · show (s2.setSink w3).sink.data = _
    rw [setSink_sink]
    exact hdata
  · show (s2.setSink w3).sink.data = _
    rw [setSink_sink, hdata]
    simp [World.indicators, foldl_inc_p, hb, passBytes]

/-- Instance of C8: one indicator of target 2 at position 1, which a producer
advances to 2 before the first tick. -/
theorem show_one_pass_witness :
    (idle [0] okSink).p.mu = RWMutex.free ∧
    (idle [0] okSink).sink.reliable ∧
    (∀ i ∈ (idle [0] okSink).p.bars,
      (([0].foldl World.inc (idle [0] okSink)).mem i).Current ≥
        (([0].foldl World.inc (idle [0] okSink)).mem i).Total) ∧
    ∃ s', Show vt (idle [0] okSink) ([0].map Event.inc ++ Event.timer :: [Event.timer]) =
        ShowRes.returned s' none 1 ∧
      s'.sink.data = (idle [0] okSink).sink.data ++ vt.save ++ vt.restore ++
        passBytes vt ([0].foldl World.inc (idle [0] okSink)).indicators ∧
      ((idle [0] okSink).p.bars = [] →
        s'.sink.data = (idle [0] okSink).sink.data ++ vt.save ++ vt.restore) :=
  ⟨rfl, by decide, by decide,
    show_one_pass vt (idle [0] okSink) [0] [Event.timer] rfl (by decide) (by decide)⟩

/-- The empty registry and one-indicator registries on concrete engines: the
bytes the sink holds when Show has returned. -/
theorem show_one_pass_concrete :
    (∃ s', Show vt (idle [] okSink) [Event.timer] = ShowRes.returned s' none 1 ∧
      s'.sink.data = "\x1b7\x1b8") ∧
    (∃ s', Show vt (idle [1] okSink) [Event.timer] = ShowRes.returned s' none 1 ∧
      s'.sink.data = "\x1b7\x1b8\x1b[2Kfull\n") ∧
    (∃ s', Show vt (idle [0] okSink) [Event.inc 0, Event.timer] = ShowRes.returned s' none 1 ∧
      s'.sink.data = "\x1b7\x1b8\x1b[2Khalf\n") :=
  ⟨⟨_, rfl, by decide⟩, ⟨_, rfl, by decide⟩, ⟨_, rfl, by decide⟩⟩

/-! ## C4 and C5: `SetOut` and the read hold it takes -/

/-- Whenever `SetOut` returns, it returns errCantChangeOut, the engine was
running, and the only field that changed is the lock, which has one more read
hold. -/
theorem setOut_ret (s s1 : World) (out : Nat) (e : Option Err)
    (h : SetOut s out = Res.ret s1 e) :
    e = some errCantChangeOut ∧ s.p.running = true ∧
      s1 = { s with p := { s.p with
        mu := { readers := s.p.mu.readers + 1, writer := s.p.mu.writer } } } := by
  unfold SetOut at h
  cases h1 : s.p.mu.RLock with
  | none => rw [h1] at h; simp at h
  | some m1 =>
    rw [h1] at h
    have hm : m1 = { readers := s.p.mu.readers + 1, writer := s.p.mu.writer } := by
      unfold RWMutex.RLock at h1
      split at h1
      · cases h1; rfl
      · cases h1
    by_cases hr : s.p.running = true
    · simp only [hr, if_true, Res.ret.injEq] at h
      obtain ⟨h2, h3⟩ := h
      subst h2 h3 hm
      refine ⟨rfl, hr, ?_⟩
      simp [hr]
    · have hl : m1.Lock = none := by
        rw [hm]; simp [RWMutex.Lock]
      simp [hr, hl] at h

/-- C4: SetOut on an idle engine (running flag false, lock free) does not
return nil: having taken a read hold it stops at the exclusive acquisition
with the sink reference still the old one; in no state at all does SetOut
return nil.  On a running engine whose lock is free it returns
errCantChangeOut with the sink reference as before. -/
theorem setOut_idle_blocks :
    SetOut (idle [] okSink) 1 =
      Res.blocked { idle [] okSink with
        p := { (idle [] okSink).p with mu := { readers := 1, writer := false } } } ∧
    (∀ (s : World) (out : Nat) (s' : World), SetOut s out ≠ Res.ret s' none) ∧
    (∃ s', SetOut (active [] okSink) 1 = Res.ret s' (some errCantChangeOut) ∧
      s'.p.out = (active [] okSink).p.out) := by
  refine ⟨rfl, ?_, ⟨_, rfl, rfl⟩⟩
  intro s out s' h
  have := (setOut_ret s s' out none h).1
  cases this

/-- C5: a SetOut call rejected on a running engine returns with a read hold
still in place; the next pass and the exit step of Show then stop at the
exclusive acquisition, while without the call the pass comes back.  This is
so after every SetOut call that returns, on any engine. -/
theorem rejected_setOut_keeps_read_hold :
    (∃ s1, SetOut (active [0] okSink) 1 = Res.ret s1 (some errCantChangeOut) ∧
      s1.p.mu = { readers := 1, writer := false } ∧
      (active [0] okSink).p.mu = { readers := 0, writer := false } ∧
      poll vt s1 = Res.blocked s1 ∧
      showExit s1 (some ErrCanceled) 0 = ShowRes.blocked s1 0 ∧
      showLoop vt s1 [Event.timer] 0 =
        ShowRes.blocked (s1.setSink (termRestore vt s1.sink)) 0 ∧
      (∃ s2, poll vt (active [0] okSink) = Res.ret s2 (some errUnfinished))) ∧
    (∀ (t : Term) (s s1 : World) (out : Nat) (e : Option Err),
      SetOut s out = Res.ret s1 e →
        0 < s1.p.mu.readers ∧ poll t s1 = Res.blocked s1 ∧
          ∀ err n, showExit s1 err n = ShowRes.blocked s1 n) := by
  refine ⟨⟨_, rfl, rfl, rfl, rfl, rfl, rfl, ⟨_, rfl⟩⟩, ?_⟩
  intro t s s1 out e h
  obtain ⟨-, -, hs⟩ := setOut_ret s s1 out e h
  have hl : s1.p.mu.Lock = none := by
    rw [hs]; simp [RWMutex.Lock]
  refine ⟨by rw [hs]; exact Nat.succ_pos _, ?_, ?_⟩
  · simp only [poll, hl]
  · intro err n
    simp only [showExit, hl]

/-! ## C3 -/

/-- A pass that has gone through a first part of the registry without a write
error carries on with the rest from there. -/
theorem pollBars_append (t : Term) (more : List Bar) :
    ∀ (pre : List Bar) (w wi : Writer) (err ri : Option Err),
      pollBars t w pre err = (wi, ri) → (∀ c, err ≠ some (Err.write c)) →
      (∀ c, ri ≠ some (Err.write c)) →
      pollBars t w (pre ++ more) err = pollBars t wi more ri := by
  intro pre
  induction pre with
  | nil =>
    intro w wi err ri h _ _
    simp only [pollBars, Prod.mk.injEq] at h
    obtain ⟨h1, h2⟩ := h
    subst h1 h2
    rfl
  | cons a pre ih =>
    intro w wi err ri h herr hri
    rcases hx : (termClearLine t w).Write a.Render with ⟨w2, _ | e2⟩
    · rcases hy : w2.Write "\n" with ⟨w3, _ | e3⟩
      · simp only [pollBars, Bar.Execute, hx, hy] at h
        simp only [List.cons_append, pollBars, Bar.Execute, hx, hy]
        refine ih w3 wi _ ri h ?_ hri
        intro c
        by_cases hb : a.Current < a.Total
        · simp [hb, errUnfinished]
        · simp only [hb, if_false]; exact herr c
      · simp only [pollBars, Bar.Execute, hx, hy, Prod.mk.injEq] at h
        obtain ⟨c, hc⟩ := write_some hy
        exact absurd (h.2.symm.trans (by rw [hc])) (hri c)
    · simp only [pollBars, Bar.Execute, hx, Prod.mk.injEq] at h
      obtain ⟨c, hc⟩ := write_some hx
      exact absurd (h.2.symm.trans (by rw [hc])) (hri c)

/-- The pass stops at an indicator whose text or newline write fails. -/
theorem pollBars_fail_here (t : Term) (b : Bar) (post : List Bar) (wi : Writer)
    (ri : Option Err) (e : Err)
    (hfail : (b.Execute (termClearLine t wi)).2 = some e ∨
      ((b.Execute (termClearLine t wi)).2 = none ∧
        ((b.Execute (termClearLine t wi)).1.Write "\n").2 = some e)) :
    pollBars t wi (b :: post) ri =
      (if (b.Execute (termClearLine t wi)).2 = none
        then ((b.Execute (termClearLine t wi)).1.Write "\n").1
        else (b.Execute (termClearLine t wi)).1, some e) := by
  rcases hx : b.Execute (termClearLine t wi) with ⟨w2, _ | e2⟩
  · rw [hx] at hfail
    rcases hfail with h | ⟨-, h⟩
    · cases h
    · rcases hy : w2.Write "\n" with ⟨w3, _ | e3⟩
      · rw [hy] at h; cases h
      · rw [hy] at h
        simp only [Option.some.injEq] at h
        subst h
        simp only [pollBars, hx, hy, if_true]
  · rw [hx] at hfail
    rcases hfail with h | ⟨h, -⟩
    · simp only [Option.some.injEq] at h
      subst h
      simp [pollBars, hx]
    · cases h

/-- C3 (amended): take an engine at the select of Show, its lock free, whose
registry is pre, i, post, and the pass Show makes on the next timer tick.  If
that pass gets through pre without a write error and, at indicator i, the
write of the rendered text or of the newline fails with e, then poll returns
e (a write error: neither nil nor errUnfinished, whatever the earlier
indicators were), the sink and the result are the same whatever follows i in
the registry, and Show returns e after that pass with the running flag
false. -/
theorem pass_write_error (t : Term) (s : World) (pre post : List Nat) (i : Nat)
    (wi : Writer) (ri : Option Err) (e : Err)
    (hmu : s.p.mu = RWMutex.free)
    (hbars : s.p.bars = pre ++ i :: post)
    (hpre : pollBars t (termRestore t s.sink) (pre.map s.mem) none = (wi, ri))
    (hreach : ∀ c, ri ≠ some (Err.write c))
    (hfail : ((s.mem i).Execute (termClearLine t wi)).2 = some e ∨
      (((s.mem i).Execute (termClearLine t wi)).2 = none ∧
        (((s.mem i).Execute (termClearLine t wi)).1.Write "\n").2 = some e)) :
    ∃ w', poll t (s.setSink (termRestore t s.sink)) = Res.ret (s.setSink w') (some e) ∧
      (∀ post' : List Nat, pollBars t (termRestore t s.sink)
        ((pre ++ i :: post').map s.mem) none = (w', some e)) ∧
      (∃ c, e = Err.write c) ∧ e ≠ errUnfinished ∧
      ∀ (rest : List Event) (n : Nat), showLoop t s (Event.timer :: rest) n =
        ShowRes.returned { s.setSink w' with p := { s.p with running := false } }
          (some e) (n + 1) := by
  have hall : ∀ post' : List Nat, pollBars t (termRestore t s.sink)
      ((pre ++ i :: post').map s.mem) none =
      (if ((s.mem i).Execute (termClearLine t wi)).2 = none
        then (((s.mem i).Execute (termClearLine t wi)).1.Write "\n").1
        else ((s.mem i).Execute (termClearLine t wi)).1, some e) := by
    intro post'
    rw [List.map_append, List.map_cons,
      pollBars_append t (s.mem i :: post'.map s.mem) (pre.map s.mem) _ wi none ri hpre
        (by simp) hreach]
    exact pollBars_fail_here t (s.mem i) (post'.map s.mem) wi ri e hfail
  have hw : ∃ c, e = Err.write c := by
    rcases hfail with h | ⟨-, h⟩
    · rcases hx : (s.mem i).Execute (termClearLine t wi) with ⟨w2, e2⟩
      rw [hx] at h
      simp only at h
      subst h
      exact write_some hx
    · rcases hy : ((s.mem i).Execute (termClearLine t wi)).1.Write "\n" with ⟨w3, e3⟩
      rw [hy] at h
      simp only at h
      subst h
      exact write_some hy
  have hne : e ≠ errUnfinished := by
    obtain ⟨c, hc⟩ := hw
    rw [hc]
    simp [errUnfinished]
  have hind : s.indicators = (pre ++ i :: post).map s.mem := by
    unfold World.indicators; rw [hbars]
  refine ⟨_, ?_, hall, hw, hne, ?_⟩
  · have hp := poll_of_free t (s.setSink (termRestore t s.sink)) hmu
    rw [setSink_sink, setSink_indicators, setSink_setSink, hind, hall post] at hp
    exact hp
  · intro rest n
    rw [showLoop_timer t s rest n hmu, hind, hall post]
    simp only [hne, if_true, ne_eq, not_false_eq_true]

/-- Instance of C3 (amended): three indicators, the newline of the second one
fails with error 9 after the first, incomplete, one went through. -/
theorem pass_write_error_witness :
    (active [0, 1, 2] lateSink).p.mu = RWMutex.free ∧
    (active [0, 1, 2] lateSink).p.bars = [0] ++ 1 :: [2] ∧
    pollBars vt (termRestore vt (active [0, 1, 2] lateSink).sink)
      ([0].map (active [0, 1, 2] lateSink).mem) none =
      ({ data := "\x1b8\x1b[2Khalf\n", script := [none, none, some 9] },
        some errUnfinished) ∧
    (∃ w', poll vt ((active [0, 1, 2] lateSink).setSink
          (termRestore vt (active [0, 1, 2] lateSink).sink)) =
        Res.ret ((active [0, 1, 2] lateSink).setSink w') (some (Err.write 9)) ∧
      (∀ post' : List Nat, pollBars vt (termRestore vt (active [0, 1, 2] lateSink).sink)
        (([0] ++ 1 :: post').map (active [0, 1, 2] lateSink).mem) none =
          (w', some (Err.write 9))) ∧
      (∃ c, Err.write 9 = Err.write c) ∧ Err.write 9 ≠ errUnfinished ∧
      ∀ (rest : List Event) (n : Nat),
        showLoop vt (active [0, 1, 2] lateSink) (Event.timer :: rest) n =
          ShowRes.returned
            { (active [0, 1, 2] lateSink).setSink w' with
              p := { (active [0, 1, 2] lateSink).p with running := false } }
            (some (Err.write 9)) (n + 1)) :=
  ⟨rfl, rfl, rfl,
    pass_write_error vt (active [0, 1, 2] lateSink) [0] [2] 1
      { data := "\x1b8\x1b[2Khalf\n", script := [none, none, some 9] }
      (some errUnfinished) (Err.write 9) rfl rfl rfl (by simp [errUnfinished])
      (Or.inr ⟨rfl, rfl⟩)⟩

/-- C3, as stated, fails: the write of the clear-current-line sequence for the
only indicator fails with error 7, yet poll returns nil; and in a run of Show
where that same write fails, Show returns nil. -/
theorem clear_line_failure_not_returned :
    ((active [1] deafSink).sink.Write vt.clearLine).2 = some (Err.write 7) ∧
    (∃ s', poll vt (active [1] deafSink) = Res.ret s' none ∧
      s'.sink.data = "full\n") ∧
    (((termRestore vt (termSave vt (idle [1] deafAtThird).sink)).Write
      vt.clearLine).2 = some (Err.write 7)) ∧
    (∃ s', Show vt (idle [1] deafAtThird) [Event.timer] = ShowRes.returned s' none 1) :=
  ⟨rfl, ⟨_, rfl, by decide⟩, rfl, ⟨_, rfl⟩⟩

/-! ## C9 -/

/-- C9 (amended): on an engine whose lock is free a pass comes back and leaves
every engine field (registry, interval, sink reference, running flag) and
every indicator as it was; when moreover the sink accepts every write, two
passes in a row, nothing changing in between, return the same result and each
appends the same bytes to the sink. -/
theorem pass_twice (t : Term) (s : World) (hmu : s.p.mu = RWMutex.free) :
    (∃ s1 r, poll t s = Res.ret s1 r ∧ s1.p = s.p ∧ s1.mem = s.mem) ∧
    (s.sink.reliable →
      ∃ s1 s2 r, poll t s = Res.ret s1 r ∧ poll t s1 = Res.ret s2 r ∧
        s1.p = s.p ∧ s2.p = s.p ∧
        s1.sink.data = s.sink.data ++ passBytes t s.indicators ∧
        s2.sink.data = s1.sink.data ++ passBytes t s.indicators) := by
  refine ⟨⟨_, _, poll_of_free t s hmu, rfl, rfl⟩, fun hw => ?_⟩
  obtain ⟨w1, e1, d1, r1⟩ := pollBars_reliable t s.indicators s.sink none hw
  obtain ⟨w2, e2, d2, -⟩ := pollBars_reliable t s.indicators w1 none r1
  have hp1 := poll_of_free t s hmu
  rw [e1] at hp1
  have hp2 := poll_of_free t (s.setSink w1) hmu
  rw [setSink_sink, setSink_indicators, setSink_setSink, e2] at hp2
  refine ⟨_, _, _, hp1, hp2, rfl, rfl, ?_, ?_⟩
  · rw [setSink_sink]; exact d1
  · rw [setSink_sink, setSink_sink]; exact d2

/-- Instance of C9 (amended): an incomplete indicator on a sink that accepts
every write. -/
theorem pass_twice_witness :
    (active [0] okSink).p.mu = RWMutex.free ∧
    ((∃ s1 r, poll vt (active [0] okSink) = Res.ret s1 r ∧
      s1.p = (active [0] okSink).p ∧ s1.mem = (active [0] okSink).mem) ∧
    ((active [0] okSink).sink.reliable →
      ∃ s1 s2 r, poll vt (active [0] okSink) = Res.ret s1 r ∧
        poll vt s1 = Res.ret s2 r ∧
        s1.p = (active [0] okSink).p ∧ s2.p = (active [0] okSink).p ∧
        s1.sink.data = (active [0] okSink).sink.data ++
          passBytes vt (active [0] okSink).indicators ∧
        s2.sink.data = s1.sink.data ++ passBytes vt (active [0] okSink).indicators)) :=
  ⟨rfl, pass_twice vt (active [0] okSink) rfl⟩

/-- C9, as stated, fails: with the registry and the indicator untouched, the
first pass returns errUnfinished having written a full line, the second one
returns the error of a failed write having written the clear-current-line
sequence only. -/
theorem second_pass_differs :
    ∃ s1 s2, poll vt (active [0] flakySink) = Res.ret s1 (some errUnfinished) ∧
      s1.p = (active [0] flakySink).p ∧ s1.mem = (active [0] flakySink).mem ∧
      poll vt s1 = Res.ret s2 (some (Err.write 5)) ∧
      s1.sink.data = "\x1b[2Khalf\n" ∧
      s2.sink.data = "\x1b[2Khalf\n\x1b[2K" :=
  ⟨_, _, rfl, rfl, rfl, rfl, by decide, by decide⟩

end Pgr
